import Mathlib

/-!
Verification of the Cat-Weight tracker core (src/app.py).

The shallow embedding models:
  * the proleptic Gregorian calendar at minute granularity (`DateTime`),
    matching the semantics of python `datetime` / `pandas.Timestamp`
    arithmetic used by the app;
  * `calculate_age_months` (app.py lines 26-34), built on
    `dateutil.relativedelta` month decomposition and `pd.DateOffset`
    month shifting, both of which clamp the day of month;
  * the reference band of `create_interactive_plot` (app.py lines 48-68):
    `np.linspace` sampling and `np.interp` piecewise-linear interpolation
    with flat clamping outside the calibration range;
  * the read path of `index` (app.py lines 156-174): the sql query is
    guarded by try/except, then `pd.to_datetime` is applied to the whole
    `date_str` column (raising on any unparseable entry); weights are
    never filtered.

Real numbers produced by the python code are modelled as rationals.
-/

namespace CatWeight

/-- Gregorian leap-year rule, as used by python `datetime`. -/
def isLeap (y : ℕ) : Bool := y % 4 == 0 && (y % 100 != 0 || y % 400 == 0)

/-- Length of month `m` (1-12) given the leap flag of its year. -/
def monthLen (leap : Bool) (m : ℕ) : ℕ :=
  match m with
  | 1 => 31
  | 2 => if leap then 29 else 28
  | 3 => 31
  | 4 => 30
  | 5 => 31
  | 6 => 30
  | 7 => 31
  | 8 => 31
  | 9 => 30
  | 10 => 31
  | 11 => 30
  | 12 => 31
  | _ => 31

/-- Number of days of month `m` of year `y`. -/
def daysInMonth (y m : ℕ) : ℕ := monthLen (isLeap y) m

/-- Days of year `y` that lie before month `m` (1-12). -/
def daysBeforeMonth (leap : Bool) (m : ℕ) : ℕ :=
  match m with
  | 1 => 0
  | 2 => 31
  | 3 => 59 + (if leap then 1 else 0)
  | 4 => 90 + (if leap then 1 else 0)
  | 5 => 120 + (if leap then 1 else 0)
  | 6 => 151 + (if leap then 1 else 0)
  | 7 => 181 + (if leap then 1 else 0)
  | 8 => 212 + (if leap then 1 else 0)
  | 9 => 243 + (if leap then 1 else 0)
  | 10 => 273 + (if leap then 1 else 0)
  | 11 => 304 + (if leap then 1 else 0)
  | 12 => 334 + (if leap then 1 else 0)
  | _ => 365 + (if leap then 1 else 0)

/-- Days lying before year `y` counted from the proleptic year 0. -/
def daysBeforeYear (y : ℕ) : ℕ :=
  365 * y + ((y + 3) / 4 + (y + 399) / 400 - (y + 99) / 100)

/-- A calendar timestamp at minute granularity: the model of a
`pandas.Timestamp` as stored by the app (`"YYYY-MM-DD HH:MM"`). -/
structure DateTime where
  year : ℕ
  month : ℕ
  day : ℕ
  mins : ℕ
  deriving DecidableEq, Repr

/-- The representation invariant of a real calendar timestamp. -/
def Valid (dt : DateTime) : Prop :=
  1 ≤ dt.month ∧ dt.month ≤ 12 ∧ 1 ≤ dt.day ∧
    dt.day ≤ daysInMonth dt.year dt.month ∧ dt.mins < 1440

instance : DecidablePred Valid := fun dt => by unfold Valid; infer_instance

/-- Linear month index: number of whole months before this month,
counted from January of year 0. -/
def monthIdx (dt : DateTime) : ℕ := 12 * dt.year + (dt.month - 1)

/-- Day number of the first day of the month with linear index `t`. -/
def monthStartIdx (t : ℕ) : ℕ :=
  daysBeforeYear (t / 12) + daysBeforeMonth (isLeap (t / 12)) (t % 12 + 1)

/-- Day number (rata die style) of a timestamp. -/
def rata (dt : DateTime) : ℕ := monthStartIdx (monthIdx dt) + (dt.day - 1)

/-- Minutes since the epoch: the timeline position of a timestamp.
Comparison of `pandas.Timestamp` values is comparison of `epochMins`. -/
def epochMins (dt : DateTime) : ℕ := 1440 * rata dt + dt.mins

/-- `pd.DateOffset(months := k)` / `dateutil` month shifting: advance the
month index by `k`, clamp the day to the length of the target month,
keep the time of day. -/
def addMonths (dt : DateTime) (k : ℕ) : DateTime :=
  { year := (monthIdx dt + k) / 12
    month := (monthIdx dt + k) % 12 + 1
    day := min dt.day (daysInMonth ((monthIdx dt + k) / 12) ((monthIdx dt + k) % 12 + 1))
    mins := dt.mins }

/-- Raw month-field difference used by `relativedelta` as its first guess. -/
def rawMonthDiff (cur bir : DateTime) : ℕ := monthIdx cur - monthIdx bir

/-- `rd.years * 12 + rd.months` of `relativedelta(cur, bir)` for
`bir <= cur`: the raw month difference, decremented when overshooting. -/
def rdFullMonths (cur bir : DateTime) : ℕ :=
  if epochMins (addMonths bir (rawMonthDiff cur bir)) ≤ epochMins cur then
    rawMonthDiff cur bir
  else
    rawMonthDiff cur bir - 1

/-- `rd.days` of `relativedelta(cur, bir)`: whole days from
`bir + full_months` to `cur` (sub-day remainder truncated). -/
def rdDays (cur bir : DateTime) : ℕ :=
  (epochMins cur - epochMins (addMonths bir (rdFullMonths cur bir))) / 1440

/-- `(end_of_month - start_of_month).days` of app.py line 32. -/
def monthIntervalDays (cur bir : DateTime) : ℕ :=
  (epochMins (addMonths bir (rdFullMonths cur bir + 1)) -
    epochMins (addMonths bir (rdFullMonths cur bir))) / 1440

/-- `calculate_age_months` of app.py lines 26-34. -/
def calculate_age_months (current_date birth_date : DateTime) : ℚ :=
  if epochMins current_date < epochMins birth_date then 0
  else
    (rdFullMonths current_date birth_date : ℚ) +
      (if 0 < monthIntervalDays current_date birth_date then
        (rdDays current_date birth_date : ℚ) /
          (monthIntervalDays current_date birth_date : ℚ)
      else 0)

/-! ### Calendar arithmetic lemmas -/

lemma monthLen_ge (leap : Bool) (m : ℕ) : 28 ≤ monthLen leap m := by
  unfold monthLen
  split <;> first
  | omega
  | (split <;> omega)

lemma daysBeforeMonth_succ (leap : Bool) (m : ℕ) (h1 : 1 ≤ m) (h2 : m ≤ 12) :
    daysBeforeMonth leap (m + 1) = daysBeforeMonth leap m + monthLen leap m := by
  interval_cases m <;> cases leap <;> decide

lemma daysBeforeMonth_one (leap : Bool) : daysBeforeMonth leap 1 = 0 := rfl

lemma daysBeforeYear_succ (y : ℕ) :
    daysBeforeYear (y + 1) = daysBeforeYear y + (if isLeap y then 366 else 365) := by
  have hleap : (isLeap y = true) ↔ (y % 4 = 0 ∧ (y % 100 ≠ 0 ∨ y % 400 = 0)) := by
    simp [isLeap]
  unfold daysBeforeYear
  split_ifs with h
  · rw [hleap] at h
    omega
  · rw [hleap] at h
    omega

lemma monthStartIdx_succ (t : ℕ) :
    monthStartIdx (t + 1) = monthStartIdx t + monthLen (isLeap (t / 12)) (t % 12 + 1) := by
  rcases Nat.lt_or_ge (t % 12) 11 with hr | hr
  · have e1 : (t + 1) / 12 = t / 12 := by omega
    have e2 : (t + 1) % 12 = t % 12 + 1 := by omega
    unfold monthStartIdx
    rw [e1, e2]
    rw [daysBeforeMonth_succ (isLeap (t / 12)) (t % 12 + 1) (by omega) (by omega)]
    omega
  · have hr' : t % 12 = 11 := by omega
    have e1 : (t + 1) / 12 = t / 12 + 1 := by omega
    have e2 : (t + 1) % 12 = 0 := by omega
    unfold monthStartIdx
    rw [e1, e2, hr']
    rw [daysBeforeYear_succ (t / 12), daysBeforeMonth_one]
    have h12 : ∀ b : Bool, daysBeforeMonth b 12 + monthLen b 12 = 365 + (if b then 1 else 0) := by
      intro b; cases b <;> decide
    have := h12 (isLeap (t / 12))
    cases hb : isLeap (t / 12) <;> simp [hb] at this ⊢ <;> omega

lemma monthStartIdx_strictMono : StrictMono monthStartIdx := by
  apply strictMono_nat_of_lt_succ
  intro t
  have h := monthStartIdx_succ t
  have h28 := monthLen_ge (isLeap (t / 12)) (t % 12 + 1)
  omega

lemma monthStartIdx_mono : Monotone monthStartIdx := monthStartIdx_strictMono.monotone

lemma monthIdx_decomp (dt : DateTime) (h : Valid dt) :
    (monthIdx dt) / 12 = dt.year ∧ (monthIdx dt) % 12 + 1 = dt.month := by
  obtain ⟨h1, h2, -, -, -⟩ := h
  unfold monthIdx
  omega

lemma rata_lt_of_monthIdx_lt (d1 d2 : DateTime) (h1 : Valid d1) (h2 : Valid d2)
    (h : monthIdx d1 < monthIdx d2) : rata d1 < rata d2 := by
  obtain ⟨hy1, hm1⟩ := monthIdx_decomp d1 h1
  obtain ⟨hd11, hd12, hd13, hd14, -⟩ := h1
  have hday : d1.day - 1 < monthLen (isLeap (monthIdx d1 / 12)) (monthIdx d1 % 12 + 1) := by
    rw [hy1, hm1]
    have := monthLen_ge (isLeap d1.year) d1.month
    unfold daysInMonth at hd14
    omega
  have hstep := monthStartIdx_succ (monthIdx d1)
  have hmono : monthStartIdx (monthIdx d1 + 1) ≤ monthStartIdx (monthIdx d2) :=
    monthStartIdx_mono (by omega)
  unfold rata
  omega

lemma epochMins_lt_of_monthIdx_lt (d1 d2 : DateTime) (h1 : Valid d1) (h2 : Valid d2)
    (h : monthIdx d1 < monthIdx d2) : epochMins d1 < epochMins d2 := by
  have hr := rata_lt_of_monthIdx_lt d1 d2 h1 h2 h
  obtain ⟨-, -, -, -, hm⟩ := h1
  unfold epochMins
  omega

lemma monthIdx_le_of_epochMins_le (d1 d2 : DateTime) (h1 : Valid d1) (h2 : Valid d2)
    (h : epochMins d1 ≤ epochMins d2) : monthIdx d1 ≤ monthIdx d2 := by
  by_contra hlt
  have := epochMins_lt_of_monthIdx_lt d2 d1 h2 h1 (by omega)
  omega

lemma monthIdx_addMonths (dt : DateTime) (k : ℕ) :
    monthIdx (addMonths dt k) = monthIdx dt + k := by
  simp only [addMonths, monthIdx]
  omega

lemma valid_addMonths (dt : DateTime) (k : ℕ) (h : Valid dt) : Valid (addMonths dt k) := by
  obtain ⟨h1, h2, h3, h4, h5⟩ := h
  have hlen := monthLen_ge (isLeap ((monthIdx dt + k) / 12)) ((monthIdx dt + k) % 12 + 1)
  refine ⟨by simp [addMonths], by simp [addMonths]; omega, ?_, ?_, by simpa [addMonths] using h5⟩
  · simp only [addMonths]
    unfold daysInMonth
    omega
  · simp only [addMonths]
    unfold daysInMonth
    omega

lemma addMonths_zero (dt : DateTime) (h : Valid dt) : addMonths dt 0 = dt := by
  obtain ⟨h1, h2, h3, h4, h5⟩ := h
  have hy : (monthIdx dt + 0) / 12 = dt.year := by unfold monthIdx; omega
  have hm : (monthIdx dt + 0) % 12 + 1 = dt.month := by unfold monthIdx; omega
  unfold addMonths
  rw [hy, hm]
  have hd : min dt.day (daysInMonth dt.year dt.month) = dt.day := min_eq_left h4
  rw [hd]

lemma addMonths_epochMins_lt (dt : DateTime) (h : Valid dt) {k1 k2 : ℕ} (hk : k1 < k2) :
    epochMins (addMonths dt k1) < epochMins (addMonths dt k2) := by
  apply epochMins_lt_of_monthIdx_lt _ _ (valid_addMonths dt k1 h) (valid_addMonths dt k2 h)
  rw [monthIdx_addMonths, monthIdx_addMonths]
  omega

lemma addMonths_epochMins_le (dt : DateTime) (h : Valid dt) {k1 k2 : ℕ} (hk : k1 ≤ k2) :
    epochMins (addMonths dt k1) ≤ epochMins (addMonths dt k2) := by
  rcases Nat.lt_or_ge k1 k2 with hlt | hge
  · exact (addMonths_epochMins_lt dt h hlt).le
  · have : k1 = k2 := by omega
    subst this
    exact le_refl _

lemma rdFullMonths_spec (cur bir : DateTime) (hc : Valid cur) (hb : Valid bir)
    (h : epochMins bir ≤ epochMins cur) :
    epochMins (addMonths bir (rdFullMonths cur bir)) ≤ epochMins cur ∧
    epochMins cur < epochMins (addMonths bir (rdFullMonths cur bir + 1)) := by
  have hidx : monthIdx bir ≤ monthIdx cur := monthIdx_le_of_epochMins_le bir cur hb hc h
  have hraw : monthIdx bir + rawMonthDiff cur bir = monthIdx cur := by
    unfold rawMonthDiff; omega
  unfold rdFullMonths
  split_ifs with htest
  · refine ⟨htest, ?_⟩
    apply epochMins_lt_of_monthIdx_lt cur _ hc (valid_addMonths bir _ hb)
    rw [monthIdx_addMonths]
    omega
  · have hraw1 : 1 ≤ rawMonthDiff cur bir := by
      by_contra h0
      have hz : rawMonthDiff cur bir = 0 := by omega
      rw [hz, addMonths_zero bir hb] at htest
      exact htest h
    constructor
    · apply le_of_lt
      apply epochMins_lt_of_monthIdx_lt _ cur (valid_addMonths bir _ hb) hc
      rw [monthIdx_addMonths]
      omega
    · have he : rawMonthDiff cur bir - 1 + 1 = rawMonthDiff cur bir := by omega
      rw [he]
      omega

lemma addMonths_mins (dt : DateTime) (k : ℕ) : (addMonths dt k).mins = dt.mins := rfl

lemma rata_addMonths_lt_succ (bir : DateTime) (n : ℕ) :
    rata (addMonths bir n) < rata (addMonths bir (n + 1)) := by
  have ht : monthIdx (addMonths bir n) = monthIdx bir + n := monthIdx_addMonths bir n
  have ht1 : monthIdx (addMonths bir (n + 1)) = monthIdx bir + n + 1 := by
    rw [monthIdx_addMonths]; omega
  have hstep := monthStartIdx_succ (monthIdx bir + n)
  have hday : (addMonths bir n).day ≤
      monthLen (isLeap ((monthIdx bir + n) / 12)) ((monthIdx bir + n) % 12 + 1) := by
    simp only [addMonths, daysInMonth]
    exact min_le_right _ _
  have h28 := monthLen_ge (isLeap ((monthIdx bir + n) / 12)) ((monthIdx bir + n) % 12 + 1)
  unfold rata
  rw [ht, ht1]
  omega

lemma monthIntervalDays_pos (cur bir : DateTime) : 0 < monthIntervalDays cur bir := by
  have h := rata_addMonths_lt_succ bir (rdFullMonths cur bir)
  have h1 : (addMonths bir (rdFullMonths cur bir)).mins = bir.mins := rfl
  have h2 : (addMonths bir (rdFullMonths cur bir + 1)).mins = bir.mins := rfl
  unfold monthIntervalDays epochMins
  rw [h1, h2]
  omega

lemma monthIntervalDays_eq_rataDiff (cur bir : DateTime) :
    monthIntervalDays cur bir =
      rata (addMonths bir (rdFullMonths cur bir + 1)) - rata (addMonths bir (rdFullMonths cur bir)) := by
  have h := rata_addMonths_lt_succ bir (rdFullMonths cur bir)
  have h1 : (addMonths bir (rdFullMonths cur bir)).mins = bir.mins := rfl
  have h2 : (addMonths bir (rdFullMonths cur bir + 1)).mins = bir.mins := rfl
  unfold monthIntervalDays epochMins
  rw [h1, h2]
  omega

lemma calc_eq (cur bir : DateTime) (h : ¬ epochMins cur < epochMins bir) :
    calculate_age_months cur bir =
      (rdFullMonths cur bir : ℚ) + (rdDays cur bir : ℚ) / (monthIntervalDays cur bir : ℚ) := by
  unfold calculate_age_months
  rw [if_neg h, if_pos (monthIntervalDays_pos cur bir)]

lemma rdDays_lt (cur bir : DateTime) (hc : Valid cur) (hb : Valid bir)
    (h : epochMins bir ≤ epochMins cur) :
    rdDays cur bir < monthIntervalDays cur bir := by
  obtain ⟨hle, hlt⟩ := rdFullMonths_spec cur bir hc hb h
  have h1 : (addMonths bir (rdFullMonths cur bir)).mins = bir.mins := rfl
  have h2 : (addMonths bir (rdFullMonths cur bir + 1)).mins = bir.mins := rfl
  unfold rdDays monthIntervalDays
  unfold epochMins at *
  omega

lemma age_nonneg (cur bir : DateTime) : 0 ≤ calculate_age_months cur bir := by
  unfold calculate_age_months
  split_ifs <;> positivity

/-- C1: for `current >= birth`, `age_months(current, birth)` decomposes as
`full_months + fraction`, where `full_months` is the number of whole
calendar months from birth to current (characterised as the unique count
whose month shift does not pass `current` while one more month does), and
the fraction is the whole-day remainder divided by the number of days of
the calendar month interval from `birth + full_months` months to
`birth + (full_months + 1)` months. -/
theorem age_months_decomposition (cur bir : DateTime) (hc : Valid cur) (hb : Valid bir)
    (h : epochMins bir ≤ epochMins cur) :
    ∃ fm : ℕ,
      (epochMins (addMonths bir fm) ≤ epochMins cur ∧
        epochMins cur < epochMins (addMonths bir (fm + 1))) ∧
      calculate_age_months cur bir =
        (fm : ℚ) +
          (((epochMins cur - epochMins (addMonths bir fm)) / 1440 : ℕ) : ℚ) /
            ((rata (addMonths bir (fm + 1)) - rata (addMonths bir fm) : ℕ) : ℚ) := by
  refine ⟨rdFullMonths cur bir, rdFullMonths_spec cur bir hc hb h, ?_⟩
  rw [calc_eq cur bir (by omega), monthIntervalDays_eq_rataDiff]
  rfl

/-- C1 witness at `birth = 2025-08-30`, `current = 2025-09-15`. -/
theorem age_months_decomposition_witness :
    ∃ fm : ℕ,
      (epochMins (addMonths ⟨2025, 8, 30, 0⟩ fm) ≤ epochMins ⟨2025, 9, 15, 0⟩ ∧
        epochMins ⟨2025, 9, 15, 0⟩ < epochMins (addMonths ⟨2025, 8, 30, 0⟩ (fm + 1))) ∧
      calculate_age_months ⟨2025, 9, 15, 0⟩ ⟨2025, 8, 30, 0⟩ =
        (fm : ℚ) +
          (((epochMins ⟨2025, 9, 15, 0⟩ - epochMins (addMonths ⟨2025, 8, 30, 0⟩ fm)) / 1440 : ℕ) : ℚ) /
            ((rata (addMonths ⟨2025, 8, 30, 0⟩ (fm + 1)) - rata (addMonths ⟨2025, 8, 30, 0⟩ fm) : ℕ) : ℚ) :=
  age_months_decomposition ⟨2025, 9, 15, 0⟩ ⟨2025, 8, 30, 0⟩ (by decide) (by decide) (by decide)

/-- C2: the age calculation is monotone non-decreasing in the current
date, for a fixed birth date. -/
theorem age_months_monotone (d1 d2 bir : DateTime) (h1 : Valid d1) (h2 : Valid d2)
    (hb : Valid bir) (h : epochMins d1 < epochMins d2) :
    calculate_age_months d1 bir ≤ calculate_age_months d2 bir := by
  by_cases hc1 : epochMins d1 < epochMins bir
  · rw [calculate_age_months, if_pos hc1]
    exact age_nonneg d2 bir
  · have hb1 : epochMins bir ≤ epochMins d1 := by omega
    have hb2 : epochMins bir ≤ epochMins d2 := by omega
    obtain ⟨hs1, he1⟩ := rdFullMonths_spec d1 bir h1 hb hb1
    obtain ⟨hs2, he2⟩ := rdFullMonths_spec d2 bir h2 hb hb2
    have hfm : rdFullMonths d1 bir ≤ rdFullMonths d2 bir := by
      by_contra hlt
      push_neg at hlt
      have hcontra : epochMins (addMonths bir (rdFullMonths d2 bir + 1)) ≤
          epochMins (addMonths bir (rdFullMonths d1 bir)) :=
        addMonths_epochMins_le bir hb (by omega)
      omega
    rw [calc_eq d1 bir hc1, calc_eq d2 bir (by omega)]
    rcases Nat.lt_or_ge (rdFullMonths d1 bir) (rdFullMonths d2 bir) with hmlt | hmge
    · have hfrac1 : (rdDays d1 bir : ℚ) / (monthIntervalDays d1 bir : ℚ) < 1 := by
        have hd := rdDays_lt d1 bir h1 hb hb1
        have hpos := monthIntervalDays_pos d1 bir
        rw [div_lt_one (by exact_mod_cast hpos)]
        exact_mod_cast hd
      have hfrac2 : 0 ≤ (rdDays d2 bir : ℚ) / (monthIntervalDays d2 bir : ℚ) := by positivity
      have hcast : (rdFullMonths d1 bir : ℚ) + 1 ≤ (rdFullMonths d2 bir : ℚ) := by
        exact_mod_cast hmlt
      linarith
    · have heq : rdFullMonths d1 bir = rdFullMonths d2 bir := by omega
      have hdim : monthIntervalDays d1 bir = monthIntervalDays d2 bir := by
        unfold monthIntervalDays
        rw [heq]
      have hdays : rdDays d1 bir ≤ rdDays d2 bir := by
        unfold rdDays
        rw [heq]
        exact Nat.div_le_div_right (Nat.sub_le_sub_right h.le _)
      rw [heq, hdim]
      have hpos : (0 : ℚ) < (monthIntervalDays d2 bir : ℚ) := by
        exact_mod_cast monthIntervalDays_pos d2 bir
      have hdq : (rdDays d1 bir : ℚ) ≤ (rdDays d2 bir : ℚ) := by exact_mod_cast hdays
      have hdivs : (rdDays d1 bir : ℚ) / (monthIntervalDays d2 bir : ℚ) ≤
          (rdDays d2 bir : ℚ) / (monthIntervalDays d2 bir : ℚ) := by
        gcongr
      linarith [hdivs]

/-- C2 witness: Sep 15 vs Sep 30 of 2025 against birth 2025-08-30. -/
theorem age_months_monotone_witness :
    calculate_age_months ⟨2025, 9, 15, 0⟩ ⟨2025, 8, 30, 0⟩ ≤
      calculate_age_months ⟨2025, 9, 30, 0⟩ ⟨2025, 8, 30, 0⟩ :=
  age_months_monotone _ _ _ (by decide) (by decide) (by decide) (by decide)

/-- C3: a current date strictly before birth yields exactly 0 (total
function, no exception), the age at birth itself is 0, and the result is
never negative. -/
theorem age_months_clamp_and_nonneg :
    (∀ cur bir : DateTime, epochMins cur < epochMins bir → calculate_age_months cur bir = 0) ∧
    (∀ bir : DateTime, Valid bir → calculate_age_months bir bir = 0) ∧
    (∀ cur bir : DateTime, 0 ≤ calculate_age_months cur bir) := by
  refine ⟨?_, ?_, fun cur bir => age_nonneg cur bir⟩
  · intro cur bir h
    rw [calculate_age_months, if_pos h]
  · intro bir hb
    have hz : rawMonthDiff bir bir = 0 := by
      unfold rawMonthDiff
      omega
    have hfm : rdFullMonths bir bir = 0 := by
      unfold rdFullMonths
      rw [hz, addMonths_zero bir hb]
      simp
    have hdays : rdDays bir bir = 0 := by
      unfold rdDays
      rw [hfm, addMonths_zero bir hb]
      simp
    rw [calc_eq bir bir (by omega), hfm, hdays]
    norm_num

/-- C3 witness: a date before birth maps to age 0. -/
theorem age_months_clamp_and_nonneg_witness :
    calculate_age_months ⟨2025, 5, 1, 0⟩ ⟨2025, 8, 30, 0⟩ = 0 :=
  age_months_clamp_and_nonneg.1 _ _ (by decide)

/-- C4: the exact worked examples of the specification, with birth
2025-08-30: one full calendar month at 2025-09-30, and 16/31 of the
31-day first month at 2025-09-15. -/
theorem age_months_examples :
    calculate_age_months ⟨2025, 9, 30, 0⟩ ⟨2025, 8, 30, 0⟩ = 1 ∧
    calculate_age_months ⟨2025, 9, 15, 0⟩ ⟨2025, 8, 30, 0⟩ = 16 / 31 := by
  constructor
  · rw [calc_eq _ _ (by decide)]
    have hfm : rdFullMonths ⟨2025, 9, 30, 0⟩ ⟨2025, 8, 30, 0⟩ = 1 := by decide
    have hd : rdDays ⟨2025, 9, 30, 0⟩ ⟨2025, 8, 30, 0⟩ = 0 := by decide
    have hm : monthIntervalDays ⟨2025, 9, 30, 0⟩ ⟨2025, 8, 30, 0⟩ = 30 := by decide
    rw [hfm, hd, hm]
    norm_num
  · rw [calc_eq _ _ (by decide)]
    have hfm : rdFullMonths ⟨2025, 9, 15, 0⟩ ⟨2025, 8, 30, 0⟩ = 0 := by decide
    have hd : rdDays ⟨2025, 9, 15, 0⟩ ⟨2025, 8, 30, 0⟩ = 16 := by decide
    have hm : monthIntervalDays ⟨2025, 9, 15, 0⟩ ⟨2025, 8, 30, 0⟩ = 31 := by decide
    rw [hfm, hd, hm]
    norm_num

/-- C5: the month interval used as the denominator of the fraction is
always positive (so the guarded division of app.py line 33 never divides
by zero), and whenever `current >= birth` the result takes the division
branch `full_months + rd.days / days_in_month`. -/
theorem age_months_division_guard :
    (∀ cur bir : DateTime, 0 < monthIntervalDays cur bir) ∧
    (∀ cur bir : DateTime, ¬ epochMins cur < epochMins bir →
      calculate_age_months cur bir =
        (rdFullMonths cur bir : ℚ) + (rdDays cur bir : ℚ) / (monthIntervalDays cur bir : ℚ)) :=
  ⟨monthIntervalDays_pos, calc_eq⟩

/-- C5 witness: the division-branch shape at a concrete input. -/
theorem age_months_division_guard_witness :
    calculate_age_months ⟨2025, 9, 15, 0⟩ ⟨2025, 8, 30, 0⟩ =
      (rdFullMonths ⟨2025, 9, 15, 0⟩ ⟨2025, 8, 30, 0⟩ : ℚ) +
        (rdDays ⟨2025, 9, 15, 0⟩ ⟨2025, 8, 30, 0⟩ : ℚ) /
          (monthIntervalDays ⟨2025, 9, 15, 0⟩ ⟨2025, 8, 30, 0⟩ : ℚ) :=
  age_months_division_guard.2 _ _ (by decide)

/-! ### Reference data and the interactive plot (app.py lines 36-68) -/

/-- `MALE_REF` of app.py lines 37-41: `(age_months, lower_kg, upper_kg)`. -/
def MALE_REF : List (ℚ × ℚ × ℚ) :=
  [(0.0, 0.08, 0.17), (7 / 30.44, 0.18, 0.29), (14 / 30.44, 0.29, 0.43), (21 / 30.44, 0.42, 0.60),
   (1.0, 0.61, 0.82), (2.0, 0.9, 1.8), (3.0, 1.7, 2.3), (4.0, 2.9, 4.1),
   (5.0, 3.3, 5.4), (6.0, 3.4, 5.9), (7.0, 4.1, 6.3), (8.0, 4.4, 6.8), (9.0, 5.0, 7.3),
   (10.0, 5.1, 7.7)]

/-- `FEMALE_REF` of app.py lines 42-46. -/
def FEMALE_REF : List (ℚ × ℚ × ℚ) :=
  [(0.0, 0.08, 0.15), (7 / 30.44, 0.15, 0.26), (14 / 30.44, 0.27, 0.41), (21 / 30.44, 0.41, 0.55),
   (1.0, 0.55, 0.74), (2.0, 0.9, 1.4), (3.0, 1.4, 2.3), (4.0, 2.5, 3.6),
   (5.0, 2.7, 4.2), (6.0, 3.1, 4.5), (7.0, 3.3, 4.5), (8.0, 3.7, 5.0), (9.0, 4.1, 5.4),
   (10.0, 4.0, 5.4)]

/-- A working-set record as used by `create_interactive_plot`: cat name,
parsed timestamp and numeric weight. -/
structure Row where
  catName : String
  date : DateTime
  weight : ℚ

/-- The `ref_months` column of the reference table. -/
def curveAges (curve : List (ℚ × ℚ × ℚ)) : List ℚ := curve.map (fun p => p.1)

/-- The `(x, y)` pairs fed to `np.interp` for the lower bound. -/
def lowerPts (curve : List (ℚ × ℚ × ℚ)) : List (ℚ × ℚ) := curve.map (fun p => (p.1, p.2.1))

/-- The `(x, y)` pairs fed to `np.interp` for the upper bound. -/
def upperPts (curve : List (ℚ × ℚ × ℚ)) : List (ℚ × ℚ) := curve.map (fun p => (p.1, p.2.2))

/-- Maximum of a list of rationals (python `max`; arbitrary on `[]`,
which the app never passes). -/
def listMaxQ : List ℚ → ℚ
  | [] => 0
  | [x] => x
  | x :: y :: t => max x (listMaxQ (y :: t))

/-- `np.interp` over an increasing table of `(x, y)` pairs: flat clamping
outside the table, linear interpolation between consecutive points. -/
def interpPts (x : ℚ) : List (ℚ × ℚ) → ℚ
  | [] => 0
  | [p] => p.2
  | p :: q :: rest =>
    if x ≤ p.1 then p.2
    else if x ≤ q.1 then p.2 + (q.2 - p.2) * (x - p.1) / (q.1 - p.1)
    else interpPts x (q :: rest)

/-- `np.linspace lo hi num`: `num` evenly spaced samples, endpoints included. -/
def linspace (lo hi : ℚ) (num : ℕ) : List ℚ :=
  (List.range num).map (fun i : ℕ => lo + (i : ℚ) * ((hi - lo) / ((num - 1 : ℕ) : ℚ)))

/-- Calendar predecessor day (used to model `Timestamp - timedelta(days=1)`). -/
def prevDay (dt : DateTime) : DateTime :=
  if 1 < dt.day then ⟨dt.year, dt.month, dt.day - 1, dt.mins⟩
  else if 1 < dt.month then ⟨dt.year, dt.month - 1, daysInMonth dt.year (dt.month - 1), dt.mins⟩
  else ⟨dt.year - 1, 12, 31, dt.mins⟩

/-- Calendar successor day (used to model `Timestamp + timedelta(days=1)`). -/
def nextDay (dt : DateTime) : DateTime :=
  if dt.day < daysInMonth dt.year dt.month then ⟨dt.year, dt.month, dt.day + 1, dt.mins⟩
  else if dt.month < 12 then ⟨dt.year, dt.month + 1, 1, dt.mins⟩
  else ⟨dt.year + 1, 1, 1, dt.mins⟩

/-- `Timestamp - timedelta(days := n)`. -/
def subDays (dt : DateTime) : ℕ → DateTime
  | 0 => dt
  | n + 1 => prevDay (subDays dt n)

/-- `Timestamp + timedelta(days := n)`. -/
def addDays (dt : DateTime) : ℕ → DateTime
  | 0 => dt
  | n + 1 => nextDay (addDays dt n)

/-- `df['date'].min()` over the working set (python raises on an empty
frame; the app only calls this on a non-empty one). -/
def minDate : List Row → DateTime
  | [] => ⟨2025, 8, 30, 0⟩
  | r :: rs =>
    rs.foldl (fun acc s => if epochMins s.date < epochMins acc then s.date else acc) r.date

/-- `df['date'].max()` over the working set. -/
def maxDate : List Row → DateTime
  | [] => ⟨2025, 8, 30, 0⟩
  | r :: rs =>
    rs.foldl (fun acc s => if epochMins acc < epochMins s.date then s.date else acc) r.date

/-- The numeric content of the figure built by `create_interactive_plot`:
the band sampling grid with its two interpolated bound columns, and the
x-axis view range. -/
structure PlotBand where
  xs : List ℚ
  lowerYs : List ℚ
  upperYs : List ℚ
  startView : ℚ
  endView : ℚ

/-- `create_interactive_plot` of app.py lines 48-68 (band and view range;
the per-cat data trace and styling are chart-renderer plumbing). -/
def create_interactive_plot (df : List Row) (cat_name : String)
    (ref_data : List (ℚ × ℚ × ℚ)) (birth_date : DateTime) : PlotBand :=
  let start_view := calculate_age_months (subDays (minDate df) 7) birth_date
  let end_view := calculate_age_months (addDays (maxDate df) 7) birth_date
  let max_interp_x := max end_view (listMaxQ (curveAges ref_data))
  let interp_months := linspace 0 max_interp_x 300
  { xs := interp_months
    lowerYs := interp_months.map (fun x => interpPts x (lowerPts ref_data))
    upperYs := interp_months.map (fun x => interpPts x (upperPts ref_data))
    startView := start_view
    endView := end_view }

/-- The fixed birth date of app.py line 173. -/
def index_birth_date : DateTime := ⟨2025, 8, 30, 0⟩

/-- The two plots built by `index` (app.py lines 178-179): both receive
the same full working set (both cats) and the shared birth date. -/
def index_plots (rows : List Row) : PlotBand × PlotBand :=
  (create_interactive_plot rows "Simba" MALE_REF index_birth_date,
    create_interactive_plot rows "Nala" FEMALE_REF index_birth_date)

/-! ### Interpolation lemmas -/

lemma chainFst_le_of_mem (q : ℚ × ℚ) (rest : List (ℚ × ℚ))
    (h : List.Chain' (fun a b : ℚ × ℚ => a.1 < b.1) (q :: rest)) :
    ∀ p ∈ q :: rest, q.1 ≤ p.1 := by
  induction rest generalizing q with
  | nil =>
    intro p hp
    rw [List.mem_singleton] at hp
    subst hp
    exact le_refl _
  | cons s t ih =>
    intro p hp
    have hqs : q.1 < s.1 := (List.chain'_cons.mp h).1
    have hch : List.Chain' (fun a b : ℚ × ℚ => a.1 < b.1) (s :: t) :=
      (List.chain'_cons.mp h).2
    rcases List.mem_cons.mp hp with h1 | h2
    · subst h1; exact le_refl _
    · have := ih s hch p h2
      linarith

lemma chainFst_lt_of_mem_tail (q : ℚ × ℚ) (rest : List (ℚ × ℚ))
    (h : List.Chain' (fun a b : ℚ × ℚ => a.1 < b.1) (q :: rest)) :
    ∀ p ∈ rest, q.1 < p.1 := by
  intro p hp
  cases rest with
  | nil => simp at hp
  | cons s t =>
    have hqs : q.1 < s.1 := (List.chain'_cons.mp h).1
    have hch : List.Chain' (fun a b : ℚ × ℚ => a.1 < b.1) (s :: t) :=
      (List.chain'_cons.mp h).2
    have := chainFst_le_of_mem s t hch p hp
    linarith

lemma interpPts_at_node (l : List (ℚ × ℚ))
    (hchain : List.Chain' (fun a b : ℚ × ℚ => a.1 < b.1) l) :
    ∀ p ∈ l, interpPts p.1 l = p.2 := by
  induction l with
  | nil => intro p hp; simp at hp
  | cons r tail ih =>
    intro p hp
    cases tail with
    | nil =>
      rw [List.mem_singleton] at hp
      subst hp
      rfl
    | cons q rest =>
      have hrq : r.1 < q.1 := (List.chain'_cons.mp hchain).1
      have hchain2 : List.Chain' (fun a b : ℚ × ℚ => a.1 < b.1) (q :: rest) :=
        (List.chain'_cons.mp hchain).2
      rcases List.mem_cons.mp hp with hpr | hptail
      · subst hpr
        simp [interpPts]
      · have hqp : q.1 ≤ p.1 := chainFst_le_of_mem q rest hchain2 p hptail
        have hnot1 : ¬ p.1 ≤ r.1 := by linarith
        show interpPts p.1 (r :: q :: rest) = p.2
        rw [interpPts, if_neg hnot1]
        rcases List.mem_cons.mp hptail with hpq | hprest
        · subst hpq
          rw [if_pos (le_refl _)]
          have hne : p.1 - r.1 ≠ 0 := by
            intro hz
            have : p.1 = r.1 := by linarith [sub_eq_zero.mp hz]
            linarith
          rw [mul_div_assoc, div_self hne, mul_one]
          ring
        · have hlt : q.1 < p.1 := chainFst_lt_of_mem_tail q rest hchain2 p hprest
          rw [if_neg (by linarith)]
          exact ih hchain2 p hptail

lemma interpPts_head (l : List (ℚ × ℚ)) (r0 : ℚ × ℚ) (h : l.head? = some r0)
    (x : ℚ) (hx : x ≤ r0.1) : interpPts x l = r0.2 := by
  cases l with
  | nil => simp at h
  | cons p tail =>
    have hp : p = r0 := by simpa using h
    subst hp
    cases tail with
    | nil => rfl
    | cons q rest =>
      rw [interpPts, if_pos hx]

lemma interpPts_last (l : List (ℚ × ℚ))
    (hchain : List.Chain' (fun a b : ℚ × ℚ => a.1 < b.1) l)
    (rl : ℚ × ℚ) (h : l.getLast? = some rl) (x : ℚ) (hx : rl.1 < x) :
    interpPts x l = rl.2 := by
  induction l with
  | nil => simp at h
  | cons r tail ih =>
    cases tail with
    | nil =>
      have hp : r = rl := by simpa using h
      subst hp
      rfl
    | cons q rest =>
      have hrq : r.1 < q.1 := (List.chain'_cons.mp hchain).1
      have hchain2 : List.Chain' (fun a b : ℚ × ℚ => a.1 < b.1) (q :: rest) :=
        (List.chain'_cons.mp hchain).2
      have htl : (q :: rest).getLast? = some rl := by
        rw [← List.getLast?_cons_cons (a := r)]
        exact h
      have hrl_mem : rl ∈ q :: rest := List.mem_of_getLast?_eq_some htl
      have hq_rl : q.1 ≤ rl.1 := chainFst_le_of_mem q rest hchain2 rl hrl_mem
      rw [interpPts, if_neg (by linarith), if_neg (by linarith)]
      exact ih hchain2 htl

lemma chainFst_lowerPts (curve : List (ℚ × ℚ × ℚ))
    (hs : List.Chain' (· < ·) (curveAges curve)) :
    List.Chain' (fun a b : ℚ × ℚ => a.1 < b.1) (lowerPts curve) := by
  unfold curveAges at hs
  unfold lowerPts
  rw [List.chain'_map]
  rw [List.chain'_map] at hs
  exact hs

lemma chainFst_upperPts (curve : List (ℚ × ℚ × ℚ))
    (hs : List.Chain' (· < ·) (curveAges curve)) :
    List.Chain' (fun a b : ℚ × ℚ => a.1 < b.1) (upperPts curve) := by
  unfold curveAges at hs
  unfold upperPts
  rw [List.chain'_map]
  rw [List.chain'_map] at hs
  exact hs

/-- C7: the band interpolation is exact at every calibration age and
clamps flat to the first (resp. last) calibration row outside the
calibration range. -/
theorem band_interp_nodes_and_clamp (curve : List (ℚ × ℚ × ℚ))
    (hs : List.Chain' (· < ·) (curveAges curve)) :
    (∀ p ∈ curve,
      interpPts p.1 (lowerPts curve) = p.2.1 ∧ interpPts p.1 (upperPts curve) = p.2.2) ∧
    (∀ p0, curve.head? = some p0 → ∀ x : ℚ, x < p0.1 →
      interpPts x (lowerPts curve) = p0.2.1 ∧ interpPts x (upperPts curve) = p0.2.2) ∧
    (∀ pl, curve.getLast? = some pl → ∀ x : ℚ, pl.1 < x →
      interpPts x (lowerPts curve) = pl.2.1 ∧ interpPts x (upperPts curve) = pl.2.2) := by
  have hlo := chainFst_lowerPts curve hs
  have hup := chainFst_upperPts curve hs
  refine ⟨?_, ?_, ?_⟩
  · intro p hp
    constructor
    · have := interpPts_at_node (lowerPts curve) hlo (p.1, p.2.1)
        (List.mem_map_of_mem _ hp)
      simpa using this
    · have := interpPts_at_node (upperPts curve) hup (p.1, p.2.2)
        (List.mem_map_of_mem _ hp)
      simpa using this
  · intro p0 h0 x hx
    constructor
    · have hh : (lowerPts curve).head? = some (p0.1, p0.2.1) := by
        unfold lowerPts
        rw [List.head?_map, h0]
        rfl
      exact interpPts_head _ _ hh x (le_of_lt hx)
    · have hh : (upperPts curve).head? = some (p0.1, p0.2.2) := by
        unfold upperPts
        rw [List.head?_map, h0]
        rfl
      exact interpPts_head _ _ hh x (le_of_lt hx)
  · intro pl hl x hx
    constructor
    · have hh : (lowerPts curve).getLast? = some (pl.1, pl.2.1) := by
        unfold lowerPts
        rw [List.getLast?_map, hl]
        rfl
      exact interpPts_last _ hlo _ hh x hx
    · have hh : (upperPts curve).getLast? = some (pl.1, pl.2.2) := by
        unfold upperPts
        rw [List.getLast?_map, hl]
        rfl
      exact interpPts_last _ hup _ hh x hx

/-- C7 witness on `MALE_REF`: the node at 2 months and both clamps. -/
theorem band_interp_nodes_and_clamp_witness :
    interpPts 2 (lowerPts MALE_REF) = 0.9 ∧ interpPts 2 (upperPts MALE_REF) = 1.8 := by
  have hs : List.Chain' (· < ·) (curveAges MALE_REF) := by
    norm_num [MALE_REF, curveAges, List.chain'_cons, List.chain'_singleton]
  have hm : ((2 : ℚ), (0.9 : ℚ), (1.8 : ℚ)) ∈ MALE_REF := by
    norm_num [MALE_REF]
  exact (band_interp_nodes_and_clamp MALE_REF hs).1 _ hm

lemma interpPts_pair_mono (l : List (ℚ × ℚ × ℚ)) (x : ℚ)
    (hle : ∀ p ∈ l, p.2.1 ≤ p.2.2) :
    interpPts x (lowerPts l) ≤ interpPts x (upperPts l) := by
  induction l with
  | nil => simp [interpPts, lowerPts, upperPts]
  | cons r tail ih =>
    cases tail with
    | nil =>
      have := hle r (by simp)
      simpa [interpPts, lowerPts, upperPts] using this
    | cons q rest =>
      have hr := hle r (by simp)
      have hq := hle q (by simp)
      have hrec := ih (fun p hp => hle p (List.mem_cons_of_mem _ hp))
      simp only [lowerPts, upperPts, List.map_cons] at hrec ⊢
      rw [interpPts, interpPts]
      split_ifs with h1 h2
      · exact hr
      · have hx0 : r.1 < x := by
          simp only [not_le] at h1
          exact h1
        have hx1 : x ≤ q.1 := h2
        have hd : 0 < q.1 - r.1 := by linarith
        have ht0 : 0 ≤ (x - r.1) / (q.1 - r.1) := div_nonneg (by linarith) (by linarith)
        have ht1 : (x - r.1) / (q.1 - r.1) ≤ 1 := by
          rw [div_le_one hd]
          linarith
        rw [mul_div_assoc, mul_div_assoc]
        set t := (x - r.1) / (q.1 - r.1) with hts
        have hA : 0 ≤ (r.2.2 - r.2.1) * (1 - t) := mul_nonneg (by linarith) (by linarith)
        have hB : 0 ≤ (q.2.2 - q.2.1) * t := mul_nonneg (by linarith) ht0
        nlinarith [hA, hB]
      · exact hrec

/-- C10: when every calibration row of a curve has `lower <= upper` (as
both fixed curves do), every sampled point of the produced band keeps
`lowerYs[i] <= upperYs[i]`: clamped linear interpolation preserves the
pointwise order of the two columns. -/
theorem band_lower_le_upper :
    (∀ p ∈ MALE_REF, p.2.1 ≤ p.2.2) ∧
    (∀ p ∈ FEMALE_REF, p.2.1 ≤ p.2.2) ∧
    (∀ (curve : List (ℚ × ℚ × ℚ)) (df : List Row) (cat_name : String) (bir : DateTime),
      (∀ p ∈ curve, p.2.1 ≤ p.2.2) →
      ∀ i : ℕ,
        (create_interactive_plot df cat_name curve bir).lowerYs.getD i 0 ≤
          (create_interactive_plot df cat_name curve bir).upperYs.getD i 0) := by
  refine ⟨?_, ?_, ?_⟩
  · intro p hp
    fin_cases hp <;> norm_num
  · intro p hp
    fin_cases hp <;> norm_num
  · intro curve df cn bir hc i
    have hlo : (create_interactive_plot df cn curve bir).lowerYs =
        ((create_interactive_plot df cn curve bir).xs).map
          (fun x => interpPts x (lowerPts curve)) := rfl
    have hup : (create_interactive_plot df cn curve bir).upperYs =
        ((create_interactive_plot df cn curve bir).xs).map
          (fun x => interpPts x (upperPts curve)) := rfl
    rcases Nat.lt_or_ge i ((create_interactive_plot df cn curve bir).xs.length) with hi | hi
    · rw [hlo, hup,
        List.getD_eq_getElem _ _ (by simpa using hi),
        List.getD_eq_getElem _ _ (by simpa using hi),
        List.getElem_map, List.getElem_map]
      exact interpPts_pair_mono curve _ hc
    · rw [hlo, hup,
        List.getD_eq_default _ _ (by simpa using hi),
        List.getD_eq_default _ _ (by simpa using hi)]

/-- C10 witness: first sampled point of the male band. -/
theorem band_lower_le_upper_witness :
    (create_interactive_plot [] "Simba" MALE_REF ⟨2025, 8, 30, 0⟩).lowerYs.getD 0 0 ≤
      (create_interactive_plot [] "Simba" MALE_REF ⟨2025, 8, 30, 0⟩).upperYs.getD 0 0 :=
  band_lower_le_upper.2.2 MALE_REF [] "Simba" ⟨2025, 8, 30, 0⟩ band_lower_le_upper.1 0

/-- C6: the sampling grid is exactly 300 evenly spaced values from 0 to
`domain_max` inclusive, where `domain_max` is the larger of the view
window end and the maximum calibration age of the reference curve. -/
theorem band_grid_300_samples (df : List Row) (cat_name : String)
    (curve : List (ℚ × ℚ × ℚ)) (bir : DateTime) :
    (create_interactive_plot df cat_name curve bir).xs.length = 300 ∧
    (∀ i : ℕ, i < 300 →
      (create_interactive_plot df cat_name curve bir).xs.getD i 0 =
        (i : ℚ) * (max (create_interactive_plot df cat_name curve bir).endView
          (listMaxQ (curveAges curve))) / 299) ∧
    (create_interactive_plot df cat_name curve bir).xs.getD 0 0 = 0 ∧
    (create_interactive_plot df cat_name curve bir).xs.getD 299 0 =
      max (create_interactive_plot df cat_name curve bir).endView
        (listMaxQ (curveAges curve)) := by
  have hxs : (create_interactive_plot df cat_name curve bir).xs =
      linspace 0 (max (create_interactive_plot df cat_name curve bir).endView
        (listMaxQ (curveAges curve))) 300 := rfl
  set dm := max (create_interactive_plot df cat_name curve bir).endView
    (listMaxQ (curveAges curve)) with hdm
  have hval : ∀ i : ℕ, i < 300 → (linspace 0 dm 300).getD i 0 = (i : ℚ) * dm / 299 := by
    intro i hi
    rw [List.getD_eq_getElem _ _ (by simp [linspace]; omega)]
    simp only [linspace, List.getElem_map, List.getElem_range]
    norm_num
    ring
  refine ⟨by rw [hxs]; simp [linspace], ?_, ?_, ?_⟩
  · intro i hi
    rw [hxs]
    exact hval i hi
  · rw [hxs, hval 0 (by norm_num)]
    norm_num
  · rw [hxs, hval 299 (by norm_num)]
    rw [mul_comm, mul_div_assoc]
    norm_num

/-- C6 witness: the eighth grid point of the female band at its
linspace position. -/
theorem band_grid_300_samples_witness :
    (create_interactive_plot [] "Nala" FEMALE_REF ⟨2025, 8, 30, 0⟩).xs.getD 7 0 =
      (7 : ℚ) * (max (create_interactive_plot [] "Nala" FEMALE_REF ⟨2025, 8, 30, 0⟩).endView
        (listMaxQ (curveAges FEMALE_REF))) / 299 :=
  (band_grid_300_samples [] "Nala" FEMALE_REF ⟨2025, 8, 30, 0⟩).2.1 7 (by norm_num)

lemma foldlMin_spec (rs : List Row) : ∀ a : DateTime,
    epochMins (rs.foldl
      (fun acc s => if epochMins s.date < epochMins acc then s.date else acc) a) ≤ epochMins a ∧
    (∀ r ∈ rs, epochMins (rs.foldl
      (fun acc s => if epochMins s.date < epochMins acc then s.date else acc) a) ≤
        epochMins r.date) ∧
    ((rs.foldl (fun acc s => if epochMins s.date < epochMins acc then s.date else acc) a) = a ∨
      ∃ r ∈ rs, (rs.foldl
        (fun acc s => if epochMins s.date < epochMins acc then s.date else acc) a) = r.date) := by
  induction rs with
  | nil => intro a; simp
  | cons s t ih =>
    intro a
    simp only [List.foldl_cons]
    obtain ⟨ih1, ih2, ih3⟩ :=
      ih (if epochMins s.date < epochMins a then s.date else a)
    have hba : epochMins (if epochMins s.date < epochMins a then s.date else a) ≤ epochMins a ∧
        epochMins (if epochMins s.date < epochMins a then s.date else a) ≤
          epochMins s.date := by
      split_ifs with h <;> constructor <;> omega
    refine ⟨by omega, ?_, ?_⟩
    · intro r hr
      rcases List.mem_cons.mp hr with h1 | h2
      · subst h1
        omega
      · exact ih2 r h2
    · rcases ih3 with h | ⟨r, hr, he⟩
      · rw [h]
        split_ifs with hcase
        · exact Or.inr ⟨s, List.mem_cons_self s t, rfl⟩
        · exact Or.inl rfl
      · exact Or.inr ⟨r, List.mem_cons_of_mem _ hr, he⟩

lemma foldlMax_spec (rs : List Row) : ∀ a : DateTime,
    epochMins a ≤ epochMins (rs.foldl
      (fun acc s => if epochMins acc < epochMins s.date then s.date else acc) a) ∧
    (∀ r ∈ rs, epochMins r.date ≤ epochMins (rs.foldl
      (fun acc s => if epochMins acc < epochMins s.date then s.date else acc) a)) ∧
    ((rs.foldl (fun acc s => if epochMins acc < epochMins s.date then s.date else acc) a) = a ∨
      ∃ r ∈ rs, (rs.foldl
        (fun acc s => if epochMins acc < epochMins s.date then s.date else acc) a) = r.date) := by
  induction rs with
  | nil => intro a; simp
  | cons s t ih =>
    intro a
    simp only [List.foldl_cons]
    obtain ⟨ih1, ih2, ih3⟩ :=
      ih (if epochMins a < epochMins s.date then s.date else a)
    have hba : epochMins a ≤ epochMins (if epochMins a < epochMins s.date then s.date else a) ∧
        epochMins s.date ≤
          epochMins (if epochMins a < epochMins s.date then s.date else a) := by
      split_ifs with h <;> constructor <;> omega
    refine ⟨by omega, ?_, ?_⟩
    · intro r hr
      rcases List.mem_cons.mp hr with h1 | h2
      · subst h1
        omega
      · exact ih2 r h2
    · rcases ih3 with h | ⟨r, hr, he⟩
      · rw [h]
        split_ifs with hcase
        · exact Or.inr ⟨s, List.mem_cons_self s t, rfl⟩
        · exact Or.inl rfl
      · exact Or.inr ⟨r, List.mem_cons_of_mem _ hr, he⟩

lemma minDate_spec (rows : List Row) (h : rows ≠ []) :
    (∃ r ∈ rows, minDate rows = r.date) ∧
    ∀ r ∈ rows, epochMins (minDate rows) ≤ epochMins r.date := by
  cases rows with
  | nil => exact absurd rfl h
  | cons r rs =>
    obtain ⟨h1, h2, h3⟩ := foldlMin_spec rs r.date
    constructor
    · rcases h3 with he | ⟨s, hs, he⟩
      · exact ⟨r, List.mem_cons_self r rs, he⟩
      · exact ⟨s, List.mem_cons_of_mem _ hs, he⟩
    · intro s hs
      rcases List.mem_cons.mp hs with hsr | hstail
      · subst hsr
        exact h1
      · exact h2 s hstail

lemma maxDate_spec (rows : List Row) (h : rows ≠ []) :
    (∃ r ∈ rows, maxDate rows = r.date) ∧
    ∀ r ∈ rows, epochMins r.date ≤ epochMins (maxDate rows) := by
  cases rows with
  | nil => exact absurd rfl h
  | cons r rs =>
    obtain ⟨h1, h2, h3⟩ := foldlMax_spec rs r.date
    constructor
    · rcases h3 with he | ⟨s, hs, he⟩
      · exact ⟨r, List.mem_cons_self r rs, he⟩
      · exact ⟨s, List.mem_cons_of_mem _ hs, he⟩
    · intro s hs
      rcases List.mem_cons.mp hs with hsr | hstail
      · subst hsr
        exact h1
      · exact h2 s hstail

/-- C9: for a non-empty working set, both charts built by `index` get the
x-axis view window `[age_months(min_date - 7 days, birth),
age_months(max_date + 7 days, birth)]`, where `min_date` / `max_date` are
the earliest and latest record dates across both cats. -/
theorem view_window_seven_day_pad (rows : List Row) (h : rows ≠ []) :
    ((index_plots rows).1.startView =
        calculate_age_months (subDays (minDate rows) 7) index_birth_date ∧
      (index_plots rows).1.endView =
        calculate_age_months (addDays (maxDate rows) 7) index_birth_date) ∧
    ((index_plots rows).2.startView =
        calculate_age_months (subDays (minDate rows) 7) index_birth_date ∧
      (index_plots rows).2.endView =
        calculate_age_months (addDays (maxDate rows) 7) index_birth_date) ∧
    (∃ r ∈ rows, minDate rows = r.date) ∧
    (∃ r ∈ rows, maxDate rows = r.date) ∧
    (∀ r ∈ rows,
      epochMins (minDate rows) ≤ epochMins r.date ∧
        epochMins r.date ≤ epochMins (maxDate rows)) := by
  obtain ⟨hmin1, hmin2⟩ := minDate_spec rows h
  obtain ⟨hmax1, hmax2⟩ := maxDate_spec rows h
  refine ⟨⟨?_, ?_⟩, ⟨?_, ?_⟩, hmin1, hmax1, fun r hr => ⟨hmin2 r hr, hmax2 r hr⟩⟩ <;>
    simp only [index_plots, create_interactive_plot]

/-- C9 witness: a two-record working set, one record per cat. -/
theorem view_window_seven_day_pad_witness :
    ((index_plots [⟨"Simba", ⟨2025, 9, 15, 0⟩, 3⟩, ⟨"Nala", ⟨2025, 9, 20, 0⟩, 5 / 2⟩]).1.startView =
        calculate_age_months
          (subDays (minDate [⟨"Simba", ⟨2025, 9, 15, 0⟩, 3⟩, ⟨"Nala", ⟨2025, 9, 20, 0⟩, 5 / 2⟩]) 7)
          index_birth_date ∧
      (index_plots [⟨"Simba", ⟨2025, 9, 15, 0⟩, 3⟩, ⟨"Nala", ⟨2025, 9, 20, 0⟩, 5 / 2⟩]).1.endView =
        calculate_age_months
          (addDays (maxDate [⟨"Simba", ⟨2025, 9, 15, 0⟩, 3⟩, ⟨"Nala", ⟨2025, 9, 20, 0⟩, 5 / 2⟩]) 7)
          index_birth_date) ∧
    ((index_plots [⟨"Simba", ⟨2025, 9, 15, 0⟩, 3⟩, ⟨"Nala", ⟨2025, 9, 20, 0⟩, 5 / 2⟩]).2.startView =
        calculate_age_months
          (subDays (minDate [⟨"Simba", ⟨2025, 9, 15, 0⟩, 3⟩, ⟨"Nala", ⟨2025, 9, 20, 0⟩, 5 / 2⟩]) 7)
          index_birth_date ∧
      (index_plots [⟨"Simba", ⟨2025, 9, 15, 0⟩, 3⟩, ⟨"Nala", ⟨2025, 9, 20, 0⟩, 5 / 2⟩]).2.endView =
        calculate_age_months
          (addDays (maxDate [⟨"Simba", ⟨2025, 9, 15, 0⟩, 3⟩, ⟨"Nala", ⟨2025, 9, 20, 0⟩, 5 / 2⟩]) 7)
          index_birth_date) ∧
    (∃ r ∈ [(⟨"Simba", ⟨2025, 9, 15, 0⟩, 3⟩ : Row), ⟨"Nala", ⟨2025, 9, 20, 0⟩, 5 / 2⟩],
      minDate [⟨"Simba", ⟨2025, 9, 15, 0⟩, 3⟩, ⟨"Nala", ⟨2025, 9, 20, 0⟩, 5 / 2⟩] = r.date) ∧
    (∃ r ∈ [(⟨"Simba", ⟨2025, 9, 15, 0⟩, 3⟩ : Row), ⟨"Nala", ⟨2025, 9, 20, 0⟩, 5 / 2⟩],
      maxDate [⟨"Simba", ⟨2025, 9, 15, 0⟩, 3⟩, ⟨"Nala", ⟨2025, 9, 20, 0⟩, 5 / 2⟩] = r.date) ∧
    (∀ r ∈ [(⟨"Simba", ⟨2025, 9, 15, 0⟩, 3⟩ : Row), ⟨"Nala", ⟨2025, 9, 20, 0⟩, 5 / 2⟩],
      epochMins (minDate [⟨"Simba", ⟨2025, 9, 15, 0⟩, 3⟩, ⟨"Nala", ⟨2025, 9, 20, 0⟩, 5 / 2⟩]) ≤
          epochMins r.date ∧
        epochMins r.date ≤
          epochMins (maxDate [⟨"Simba", ⟨2025, 9, 15, 0⟩, 3⟩, ⟨"Nala", ⟨2025, 9, 20, 0⟩, 5 / 2⟩])) :=
  view_window_seven_day_pad
    [⟨"Simba", ⟨2025, 9, 15, 0⟩, 3⟩, ⟨"Nala", ⟨2025, 9, 20, 0⟩, 5 / 2⟩] (by simp)

/-! ### The read path of `index` (app.py lines 156-174) -/

/-- A value stored in the sqlite `weight` column: sqlite columns are
dynamically typed, so a cell may hold a number or arbitrary text. -/
inductive SqlVal where
  | num (q : ℚ)
  | text (s : String)
  deriving DecidableEq, Repr

/-- A raw row of the `weights` table as returned by the sql query. -/
structure RawRow where
  id : ℕ
  catName : String
  dateStr : String
  weight : SqlVal
  deriving DecidableEq, Repr

/-- Split a character list on a separator character. -/
def splitChars (sep : Char) : List Char → List (List Char)
  | [] => [[]]
  | c :: cs =>
    if c = sep then [] :: splitChars sep cs
    else
      match splitChars sep cs with
      | [] => [[c]]
      | w :: ws => (c :: w) :: ws

/-- Value of a decimal digit character. -/
def charDigit? (c : Char) : Option ℕ :=
  if '0' ≤ c ∧ c ≤ '9' then some (c.toNat - '0'.toNat) else none

/-- Accumulating decimal reader. -/
def digitsValAux (acc : ℕ) : List Char → Option ℕ
  | [] => some acc
  | c :: cs =>
    match charDigit? c with
    | none => none
    | some d => digitsValAux (acc * 10 + d) cs

/-- A non-empty all-digit character list read as a natural number. -/
def parseNatChars : List Char → Option ℕ
  | [] => none
  | c :: cs => digitsValAux 0 (c :: cs)

/-- `YYYY-MM-DD` date component, validated against the calendar. -/
def parseYMD (cs : List Char) : Option (ℕ × ℕ × ℕ) :=
  match splitChars (Char.ofNat 45) cs with
  | [ys, ms, ds] =>
    match parseNatChars ys, parseNatChars ms, parseNatChars ds with
    | some y, some m, some d =>
      if 1 ≤ m ∧ m ≤ 12 ∧ 1 ≤ d ∧ d ≤ daysInMonth y m then some (y, m, d) else none
    | _, _, _ => none
  | _ => none

/-- `HH:MM` time component, read as minutes of the day. -/
def parseHM (cs : List Char) : Option ℕ :=
  match splitChars (Char.ofNat 58) cs with
  | [hs, ms] =>
    match parseNatChars hs, parseNatChars ms with
    | some h, some mi => if h < 24 ∧ mi < 60 then some (60 * h + mi) else none
    | _, _ => none
  | _ => none

/-- Model of `pd.to_datetime` on one `date_str` cell, restricted to the
formats the app itself writes (`"YYYY-MM-DD"` and `"YYYY-MM-DD HH:MM"`,
app.py lines 205-210); anything else fails to parse (pandas raises). -/
def parseDateStr (s : String) : Option DateTime :=
  match splitChars (Char.ofNat 32) s.data with
  | [d] => (parseYMD d).map (fun p => ⟨p.1, p.2.1, p.2.2, 0⟩)
  | [d, t] =>
    match parseYMD d, parseHM t with
    | some p, some mi => some ⟨p.1, p.2.1, p.2.2, mi⟩
    | _, _ => none
  | _ => none

/-- `pd.to_datetime(df['date_str'])` over the whole column: the first
unparseable cell makes the whole conversion fail. -/
def parseAllRows : List RawRow → Option (List (RawRow × DateTime))
  | [] => some []
  | r :: rs =>
    match parseDateStr r.dateStr with
    | none => none
    | some d => (parseAllRows rs).map (fun l => (r, d) :: l)

/-- The working set produced by the read path of `index` (app.py
lines 156-174): a failed sql query is caught and yields an empty frame;
a non-empty frame has `pd.to_datetime` applied to its whole `date_str`
column, which raises (modelled as `Except.error`) on any unparseable
entry. The `weight` column is never examined or filtered. -/
def indexReadRows (rows : List RawRow) : Except Unit (List (RawRow × DateTime)) :=
  if rows.isEmpty then Except.ok []
  else
    match parseAllRows rows with
    | some l => Except.ok l
    | none => Except.error ()

lemma parseAllRows_none (rows : List RawRow)
    (h : ∃ r ∈ rows, parseDateStr r.dateStr = none) : parseAllRows rows = none := by
  induction rows with
  | nil =>
    obtain ⟨r, hr, -⟩ := h
    simp at hr
  | cons a t ih =>
    obtain ⟨r, hr, hp⟩ := h
    rcases List.mem_cons.mp hr with h1 | h2
    · subst h1
      simp [parseAllRows, hp]
    · cases hpa : parseDateStr a.dateStr with
      | none => simp [parseAllRows, hpa]
      | some d => simp [parseAllRows, hpa, ih ⟨r, h2, hp⟩]

lemma parseAllRows_some (rows : List RawRow)
    (h : ∀ r ∈ rows, (parseDateStr r.dateStr).isSome) :
    ∃ l, parseAllRows rows = some l ∧ l.map (fun p => p.1) = rows := by
  induction rows with
  | nil => exact ⟨[], rfl, rfl⟩
  | cons a t ih =>
    have ha := h a (List.mem_cons_self a t)
    obtain ⟨d, hd⟩ := Option.isSome_iff_exists.mp ha
    obtain ⟨l, hl1, hl2⟩ := ih (fun r hr => h r (List.mem_cons_of_mem _ hr))
    refine ⟨(a, d) :: l, ?_, by simp [hl2]⟩
    simp [parseAllRows, hd, hl1]

/-- C8 counterexample: a stored row whose `date_str` does not parse makes
the read raise (it is not silently excluded), and a stored row whose
weight is non-numeric text is kept in the working set (not excluded). -/
theorem read_malformed_rows_counterexample :
    indexReadRows [⟨1, "Simba", "garbage", SqlVal.num 3⟩] = Except.error () ∧
    indexReadRows [⟨2, "Nala", "2025-10-01 08:30", SqlVal.text "heavy"⟩] =
      Except.ok [(⟨2, "Nala", "2025-10-01 08:30", SqlVal.text "heavy"⟩, ⟨2025, 10, 1, 510⟩)] := by
  constructor <;> rfl

/-- C8 (amended): the read path drops nothing row-by-row. If any stored
row's `date_str` fails to parse the whole read raises; if every
`date_str` parses, the working set keeps every row unchanged, including
rows whose weight is non-numeric. Only a failing initial sql query is
caught (yielding an empty working set). -/
theorem read_malformed_rows (rows : List RawRow) :
    ((∃ r ∈ rows, parseDateStr r.dateStr = none) → indexReadRows rows = Except.error ()) ∧
    ((∀ r ∈ rows, (parseDateStr r.dateStr).isSome) →
      ∃ l, indexReadRows rows = Except.ok l ∧ l.map (fun p => p.1) = rows) := by
  constructor
  · intro h
    have hne : ¬ rows.isEmpty = true := by
      obtain ⟨r, hr, -⟩ := h
      cases rows with
      | nil => simp at hr
      | cons a t => simp
    unfold indexReadRows
    rw [if_neg hne, parseAllRows_none rows h]
  · intro h
    obtain ⟨l, hl1, hl2⟩ := parseAllRows_some rows h
    unfold indexReadRows
    split_ifs with he
    · refine ⟨[], rfl, ?_⟩
      have hz : rows = [] := by
        cases rows with
        | nil => rfl
        | cons a t => simp at he
      rw [hz]
      rfl
    · rw [hl1]
      exact ⟨l, rfl, hl2⟩

/-- C8 amended-claim witness: a fully parseable single-row set with a
text weight is kept whole. -/
theorem read_malformed_rows_witness :
    ∃ l, indexReadRows [⟨7, "Nala", "2025-10-02", SqlVal.text "abc"⟩] = Except.ok l ∧
      l.map (fun p => p.1) = [⟨7, "Nala", "2025-10-02", SqlVal.text "abc"⟩] :=
  (read_malformed_rows _).2 (by
    intro r hr
    rw [List.mem_singleton] at hr
    subst hr
    rfl)

end CatWeight
